import Mathlib

/-!
Verification of the mbed-ringfs repository: a C++ adapter class
(`src/Ringfs.h`) that wraps the RingFS flash ring-buffer engine over an mbed
`BlockDevice`.  The adapter's callback implementations (`_sector_erase`,
`_program`, `_read`) and its constructor geometry are embedded directly from
the source.  The engine operations the adapter delegates to (`ringfs_format`,
`ringfs_scan`, `ringfs_append`, `ringfs_fetch`, `ringfs_discard`,
`ringfs_rewind`, `ringfs_capacity`, `ringfs_count_exact`) are not among the
repository sources, so they are modelled from the specification, using a
linearised view of the ring: every slot ever written gets an absolute index,
the physical sector of absolute slot `i` is `(i / slotsPerSector) %
sectorCount`, and the three cursors are absolute slot indices with
`discardBoundary ≤ readPos ≤ writePos` as the ring-order invariant.
-/

namespace Ringfs

/-- One record: an opaque fixed-size sequence of bytes. -/
abbrev Record := List Nat

/-- Partition geometry, fixed at initialization: number of sectors, number of
record slots per sector, configured record size. -/
structure Geom where
  sectorCount : Nat
  slotsPerSector : Nat
  recordSize : Nat
  deriving DecidableEq, Repr

/-- A geometry is well-formed when the partition has at least one sector and a
sector holds at least one slot. -/
def Geom.WF (g : Geom) : Prop :=
  1 ≤ g.sectorCount ∧ 1 ≤ g.slotsPerSector

instance (g : Geom) : Decidable g.WF := by
  unfold Geom.WF
  infer_instance

/-- Modelled from the spec: the engine state behind `struct ringfs` (the C
implementation is not among the repository sources).  `log` records every
appended payload by absolute slot index; `discardBoundary`, `readPos` and
`writePos` are the cursor, all measured along the logical (linearised) slot
sequence.  Records at indices below `discardBoundary` are discarded or
evicted; `writePos` is the next free slot, equal to `log.length` in every
reachable state. -/
structure RingState where
  geom : Geom
  log : List Record
  discardBoundary : Nat
  readPos : Nat
  writePos : Nat
  deriving DecidableEq, Repr

/-- Modelled from the spec: `ringfs_format` (absent from src/) erases every
sector and starts an empty ring with all cursors at slot 0. -/
def format (g : Geom) : RingState := ⟨g, [], 0, 0, 0⟩

/-- Modelled from the spec: `ringfs_scan` (absent from src/) rebuilds the
cursor from the persisted medium: `writePos` is the first free slot,
`readPos = discardBoundary` is the oldest valid slot still present.  The
medium itself (`log`, `writePos`, the persisted `discardBoundary`) is only
read, never written. -/
def scan (st : RingState) : RingState :=
  ⟨st.geom, st.log, st.discardBoundary, st.discardBoundary, st.writePos⟩

/-- Modelled from the spec: `ringfs_capacity` (absent from src/), reported by
the wrapper's `maximum_capacity`: one sector is reserved as the active write
target and is not counted. -/
def maximum_capacity (g : Geom) : Nat :=
  (g.sectorCount - 1) * g.slotsPerSector

/-- Modelled from the spec: the implicit-eviction boundary of an append at
absolute slot `w`.  The append opens a new logical sector exactly when
`w % slotsPerSector = 0`; if that sector's physical slot already held data
(the ring has wrapped, i.e. `w / slotsPerSector ≥ sectorCount`), its previous
logical occupant `w / slotsPerSector - sectorCount` is erased and the cursors
must advance past it, to absolute slot
`(w / slotsPerSector + 1 - sectorCount) * slotsPerSector`.  Otherwise no
eviction happens and the boundary 0 forces nothing. -/
def evict_boundary (g : Geom) (w : Nat) : Nat :=
  if w % g.slotsPerSector = 0 ∧ g.sectorCount ≤ w / g.slotsPerSector then
    (w / g.slotsPerSector + 1 - g.sectorCount) * g.slotsPerSector
  else 0

/-- Modelled from the spec: the outcome of the medium operations a single
append can issue — whether the eviction erase (issued only when the sector
being entered is not Empty) succeeds, and whether programming the slot
succeeds.  In the error taxonomy a false component is a MediumError reported
by the underlying flash. -/
structure MediumFaults where
  eraseOk : Bool
  programOk : Bool
  deriving DecidableEq, Repr

/-- Modelled from the spec: `ringfs_append` (absent from src/), called by the
wrapper's `append`, over a fallible medium.  A record of the wrong size is
rejected before any medium access (RecordTooLarge, -1).  When the append
opens a sector that is not Empty (`writePos` at a sector boundary with the
ring wrapped), an eviction erase is issued; if it fails, the append fails
with MediumError (-1).  If programming the slot fails, the append fails with
MediumError (-1).  Per the spec's no-partial-commit contract, every error
leaves the prior engine state — cursors, directory, stored records —
untouched.  On success the implicit-eviction boundary is applied to both
lower cursors, the record is written at `writePos`, and `writePos` advances
one slot (0).  The `Int` result mirrors the C return convention. -/
def append_on (st : RingState) (r : Record) (flt : MediumFaults) :
    Int × RingState :=
  if r.length = st.geom.recordSize then
    if (st.writePos % st.geom.slotsPerSector = 0 ∧
        st.geom.sectorCount ≤ st.writePos / st.geom.slotsPerSector) ∧
        flt.eraseOk = false then
      (-1, st)
    else if flt.programOk = false then
      (-1, st)
    else
      (0, ⟨st.geom, st.log ++ [r],
           max st.discardBoundary (evict_boundary st.geom st.writePos),
           max st.readPos (evict_boundary st.geom st.writePos),
           st.writePos + 1⟩)
  else (-1, st)

/-- `append_on` over a flawless medium: the fault-free append dynamics used
by the reachability development. -/
def append (st : RingState) (r : Record) : Int × RingState :=
  append_on st r ⟨true, true⟩

/-- Modelled from the spec: `ringfs_fetch` (absent from src/), called by the
wrapper's `fetch`.  When `readPos = writePos` it fails with NoMoreRecords
(here `none`) and changes nothing; otherwise it returns the record stored at
`readPos` and advances `readPos` one slot, releasing no space. -/
def fetch (st : RingState) : Option Record × RingState :=
  if st.readPos = st.writePos then (none, st)
  else (st.log[st.readPos]?,
        ⟨st.geom, st.log, st.discardBoundary, st.readPos + 1, st.writePos⟩)

/-- Modelled from the spec: `ringfs_discard` (absent from src/): releases
everything fetched so far by setting `discardBoundary = readPos`. -/
def discard (st : RingState) : RingState :=
  ⟨st.geom, st.log, st.readPos, st.readPos, st.writePos⟩

/-- Modelled from the spec: `ringfs_rewind` (absent from src/): resets
`readPos` to `discardBoundary`, changing nothing else. -/
def rewind (st : RingState) : RingState :=
  ⟨st.geom, st.log, st.discardBoundary, st.discardBoundary, st.writePos⟩

/-- Modelled from the spec: `ringfs_count_exact` (absent from src/), called by
the wrapper's `exact_number_of_files`: the number of valid, undiscarded
records, i.e. the slots between `discardBoundary` and `writePos`. -/
def exact_number_of_files (st : RingState) : Nat :=
  st.writePos - st.discardBoundary

/-- Appending a whole sequence of records, left to right. -/
def appendAll (st : RingState) : List Record → RingState
  | [] => st
  | r :: rs => appendAll (append st r).2 rs

/-- Calling `fetch` repeatedly (at most `n` times), collecting the returned
records until `fetch` reports NoMoreRecords. -/
def fetchList : Nat → RingState → List Record
  | 0, _ => []
  | n + 1, st =>
    match fetch st with
    | (none, _) => []
    | (some r, st1) => r :: fetchList n st1

/-- Calling `fetch` repeatedly until NoMoreRecords: the gap between the read
and write cursors bounds the number of fetches needed. -/
def fetchAll (st : RingState) : List Record :=
  fetchList (st.writePos - st.readPos) st

/-- The states reachable by the public engine protocol: a freshly formatted
partition followed by any sequence of scan/append/fetch/discard/rewind
calls. -/
inductive Reachable : RingState → Prop where
  | of_format : ∀ g : Geom, g.WF → Reachable (format g)
  | of_scan : ∀ st, Reachable st → Reachable (scan st)
  | of_append : ∀ st r, Reachable st → Reachable (append st r).2
  | of_fetch : ∀ st, Reachable st → Reachable (fetch st).2
  | of_discard : ∀ st, Reachable st → Reachable (discard st)
  | of_rewind : ∀ st, Reachable st → Reachable (rewind st)

/-- The engine invariant: ring-order cursor ordering, the log has exactly
`writePos` entries, and the discard boundary has been advanced past every
evicted sector. -/
def Inv (st : RingState) : Prop :=
  st.geom.WF ∧
  st.discardBoundary ≤ st.readPos ∧
  st.readPos ≤ st.writePos ∧
  st.log.length = st.writePos ∧
  ((st.writePos - 1) / st.geom.slotsPerSector + 1 - st.geom.sectorCount) *
      st.geom.slotsPerSector ≤ st.discardBoundary

/-- Mirror of `Ringfs<T>::_sector_erase`, `_program` and `_read`: the mbed
block device as the adapter sees it.  `get_erase_size` and `size` are the
constructor's geometry sources; `erase address size`, `program data address
size` and `read address size` give the status each underlying call returns
(0 = success, as in `BlockDevice`). -/
structure BlockDevice where
  get_erase_size : Nat
  size : Nat
  erase : Nat → Nat → Int
  program : List Nat → Nat → Nat → Int
  read : Nat → Nat → Int

/-- One erase issued to the block device: start address and length. -/
structure EraseCall where
  addr : Nat
  len : Nat
  deriving DecidableEq, Repr

/-- `Ringfs<T>::_sector_erase` from src/Ringfs.h: issues
`_block_device->erase(address, _block_device->get_erase_size())` and returns
-1 when that call's status is nonzero, 0 otherwise.  The second component is
the list of erase calls issued to the block device. -/
def _sector_erase (bd : BlockDevice) (address : Nat) : Int × List EraseCall :=
  (if bd.erase address bd.get_erase_size ≠ 0 then -1 else 0,
   [⟨address, bd.get_erase_size⟩])

/-- `Ringfs<T>::_program` from src/Ringfs.h: forwards to
`_block_device->program(data, address, size)` and returns -1 when its status
is nonzero, `size` otherwise. -/
def _program (bd : BlockDevice) (address : Nat) (data : List Nat)
    (size : Nat) : Int :=
  if bd.program data address size ≠ 0 then -1 else (size : Int)

/-- `Ringfs<T>::_read` from src/Ringfs.h: forwards to
`_block_device->read(data, address, size)` and returns -1 when its status is
nonzero, `size` otherwise (the out-buffer's contents do not affect the
returned status and are omitted). -/
def _read (bd : BlockDevice) (address : Nat) (size : Nat) : Int :=
  if bd.read address size ≠ 0 then -1 else (size : Int)

/-- The geometry the wrapper's constructor derives from the block device:
`_flash.sector_size = get_erase_size()` and
`_flash.sector_count = size() / sector_size` (src/Ringfs.h lines 56-58);
slot count per sector and record size are as configured by `ringfs_init`. -/
def init_geom (bd : BlockDevice) (slots rsz : Nat) : Geom :=
  ⟨bd.size / bd.get_erase_size, slots, rsz⟩

/-- A tiny concrete geometry used by witnesses: 4 sectors of 4 slots. -/
def g4 : Geom := ⟨4, 4, 1⟩

/-- A degenerate concrete geometry used by the overflow counterexample:
2 sectors of 1 slot, capacity 1. -/
def g2 : Geom := ⟨2, 1, 1⟩

/-- A concrete reachable state over `g2` holding two records. -/
def st2W : RingState := (append (append (format g2) [1]).2 [2]).2

/-- A concrete reachable state over `g4`: two appends, then one fetch. -/
def stFW : RingState :=
  (fetch (append (append (format g4) [1]).2 [2]).2).2

/-- A concrete block device used by witnesses: 256-byte erase units, 1 KiB
total, every underlying call succeeding. -/
def bdW : BlockDevice :=
  ⟨256, 1024, fun _ _ => 0, fun _ _ _ => 0, fun _ _ => 0⟩

/-- Characterization of a successful `append`. -/
lemma append_eq_success (st : RingState) (r : Record)
    (h : r.length = st.geom.recordSize) :
    append st r = (0, ⟨st.geom, st.log ++ [r],
      max st.discardBoundary (evict_boundary st.geom st.writePos),
      max st.readPos (evict_boundary st.geom st.writePos),
      st.writePos + 1⟩) := by
  have h1 : ¬ ((st.writePos % st.geom.slotsPerSector = 0 ∧
      st.geom.sectorCount ≤ st.writePos / st.geom.slotsPerSector) ∧
      ((⟨true, true⟩ : MediumFaults).eraseOk = false)) := by
    simp
  have h2 : ¬ ((⟨true, true⟩ : MediumFaults).programOk = false) := by
    simp
  unfold append append_on
  rw [if_pos h, if_neg h1, if_neg h2]

/-- Characterization of a rejected `append` (wrong record size). -/
lemma append_eq_fail (st : RingState) (r : Record)
    (h : ¬ r.length = st.geom.recordSize) :
    append st r = (-1, st) := by
  unfold append append_on
  rw [if_neg h]

/-- Characterization of `fetch` at the caught-up position. -/
lemma fetch_eq_none (st : RingState) (h : st.readPos = st.writePos) :
    fetch st = (none, st) := by
  unfold fetch
  rw [if_pos h]

/-- Characterization of `fetch` with records pending. -/
lemma fetch_eq_some (st : RingState) (h : st.readPos ≠ st.writePos) :
    fetch st = (st.log[st.readPos]?,
      ⟨st.geom, st.log, st.discardBoundary, st.readPos + 1, st.writePos⟩) := by
  unfold fetch
  rw [if_neg h]

/-- Dropping below a multiple of the slot count does not change the quotient:
if `w` is not at a sector boundary, slot `w - 1` lies in the same sector. -/
lemma div_pred_eq (w sp : Nat) (hsp : 0 < sp) (hmod : w % sp ≠ 0) :
    (w - 1) / sp = w / sp := by
  have h1 := Nat.div_add_mod w sp
  have h2 : w % sp < sp := Nat.mod_lt _ hsp
  have h3 : w - 1 = sp * (w / sp) + (w % sp - 1) := by omega
  rw [h3, Nat.mul_add_div hsp]
  have h4 : (w % sp - 1) / sp = 0 := Nat.div_eq_of_lt (by omega)
  omega

/-- The eviction boundary of an append at slot `w` never exceeds `w`. -/
lemma evict_boundary_le (g : Geom) (w : Nat) (hN : 1 ≤ g.sectorCount) :
    evict_boundary g w ≤ w := by
  unfold evict_boundary
  split
  · calc (w / g.slotsPerSector + 1 - g.sectorCount) * g.slotsPerSector
        ≤ w / g.slotsPerSector * g.slotsPerSector :=
          Nat.mul_le_mul_right _ (by omega)
      _ ≤ w := Nat.div_mul_le_self w _
  · exact Nat.zero_le w

/-- The eviction component of the invariant is preserved by one append. -/
lemma evict_inv_step (g : Geom) (w db : Nat) (hg : g.WF)
    (h : ((w - 1) / g.slotsPerSector + 1 - g.sectorCount) *
        g.slotsPerSector ≤ db) :
    ((w + 1 - 1) / g.slotsPerSector + 1 - g.sectorCount) * g.slotsPerSector
      ≤ max db (evict_boundary g w) := by
  obtain ⟨hN, hsp⟩ := hg
  simp only [Nat.add_sub_cancel]
  unfold evict_boundary
  by_cases hc : w % g.slotsPerSector = 0 ∧ g.sectorCount ≤ w / g.slotsPerSector
  · rw [if_pos hc]
    exact le_max_right _ _
  · rw [if_neg hc]
    by_cases hm : w % g.slotsPerSector = 0
    · have hz : w / g.slotsPerSector + 1 - g.sectorCount = 0 := by omega
      rw [hz, Nat.zero_mul]
      exact Nat.zero_le _
    · rw [div_pred_eq w g.slotsPerSector hsp hm] at h
      exact le_trans h (le_max_left _ _)

/-- `format` establishes the invariant. -/
lemma inv_format (g : Geom) (hg : g.WF) : Inv (format g) := by
  refine ⟨hg, Nat.le_refl 0, Nat.le_refl 0, rfl, ?_⟩
  obtain ⟨hN, hsp⟩ := hg
  have hz : (0 - 1 : Nat) / g.slotsPerSector + 1 - g.sectorCount = 0 := by
    have h0 : (0 - 1 : Nat) / g.slotsPerSector = 0 := by
      simp
    omega
  show ((0 - 1 : Nat) / g.slotsPerSector + 1 - g.sectorCount) *
      g.slotsPerSector ≤ 0
  rw [hz, Nat.zero_mul]

/-- `append` preserves the invariant. -/
lemma inv_append (st : RingState) (r : Record) (h : Inv st) :
    Inv (append st r).2 := by
  obtain ⟨hwf, h1, h2, h3, h4⟩ := h
  by_cases hs : r.length = st.geom.recordSize
  · rw [append_eq_success st r hs]
    refine ⟨hwf, ?_, ?_, ?_, ?_⟩
    · exact max_le_max h1 (Nat.le_refl _)
    · have hnb : evict_boundary st.geom st.writePos ≤ st.writePos :=
        evict_boundary_le _ _ hwf.1
      exact max_le (Nat.le_succ_of_le h2) (Nat.le_succ_of_le hnb)
    · show (st.log ++ [r]).length = st.writePos + 1
      rw [List.length_append, h3, List.length_singleton]
    · exact evict_inv_step st.geom st.writePos st.discardBoundary hwf h4
  · rw [append_eq_fail st r hs]
    exact ⟨hwf, h1, h2, h3, h4⟩

/-- `fetch` preserves the invariant. -/
lemma inv_fetch (st : RingState) (h : Inv st) : Inv (fetch st).2 := by
  obtain ⟨hwf, h1, h2, h3, h4⟩ := h
  by_cases he : st.readPos = st.writePos
  · rw [fetch_eq_none st he]
    exact ⟨hwf, h1, h2, h3, h4⟩
  · rw [fetch_eq_some st he]
    exact ⟨hwf, Nat.le_succ_of_le h1,
      Nat.succ_le_of_lt (Nat.lt_of_le_of_ne h2 he), h3, h4⟩

/-- `discard` preserves the invariant. -/
lemma inv_discard (st : RingState) (h : Inv st) : Inv (discard st) := by
  obtain ⟨hwf, h1, h2, h3, h4⟩ := h
  exact ⟨hwf, Nat.le_refl _, h2, h3, le_trans h4 h1⟩

/-- `rewind` preserves the invariant. -/
lemma inv_rewind (st : RingState) (h : Inv st) : Inv (rewind st) := by
  obtain ⟨hwf, h1, h2, h3, h4⟩ := h
  exact ⟨hwf, Nat.le_refl _, le_trans h1 h2, h3, h4⟩

/-- `scan` preserves the invariant. -/
lemma inv_scan (st : RingState) (h : Inv st) : Inv (scan st) := by
  obtain ⟨hwf, h1, h2, h3, h4⟩ := h
  exact ⟨hwf, Nat.le_refl _, le_trans h1 h2, h3, h4⟩

/-- Every reachable state satisfies the invariant. -/
lemma reachable_inv {st : RingState} (h : Reachable st) : Inv st := by
  induction h with
  | of_format g hg => exact inv_format g hg
  | of_scan st _ ih => exact inv_scan st ih
  | of_append st r _ ih => exact inv_append st r ih
  | of_fetch st _ ih => exact inv_fetch st ih
  | of_discard st _ ih => exact inv_discard st ih
  | of_rewind st _ ih => exact inv_rewind st ih

/-- Unfolding `fetchList` once at the caught-up position. -/
lemma fetchList_succ_none (n : Nat) (st : RingState)
    (h : st.readPos = st.writePos) : fetchList (n + 1) st = [] := by
  simp only [fetchList]
  rw [fetch_eq_none st h]

/-- Unfolding `fetchList` once with records pending. -/
lemma fetchList_succ_some (n : Nat) (st : RingState)
    (hne : st.readPos ≠ st.writePos) (r : Record)
    (hr : st.log[st.readPos]? = some r) :
    fetchList (n + 1) st =
      r :: fetchList n
        ⟨st.geom, st.log, st.discardBoundary, st.readPos + 1, st.writePos⟩ := by
  have h1 : fetch st = (some r,
      ⟨st.geom, st.log, st.discardBoundary, st.readPos + 1, st.writePos⟩) := by
    rw [fetch_eq_some st hne, hr]
  simp only [fetchList]
  rw [h1]

/-- Repeated fetching from a state whose log fills exactly the written
positions returns precisely the records from the read cursor on. -/
lemma fetchList_drop : ∀ (n : Nat) (g : Geom) (l : List Record) (db rp : Nat),
    rp + n = l.length →
    fetchList n ⟨g, l, db, rp, l.length⟩ = l.drop rp := by
  intro n
  induction n with
  | zero =>
    intro g l db rp h
    have hle : l.length ≤ rp := by omega
    exact (List.drop_eq_nil_of_le hle).symm
  | succ n ih =>
    intro g l db rp h
    have hlt : rp < l.length := by omega
    have hne : rp ≠ l.length := by omega
    have hr : l[rp]? = some (l.get ⟨rp, hlt⟩) := by
      rw [List.get_eq_getElem]
      exact List.getElem?_eq_getElem hlt
    rw [fetchList_succ_some n ⟨g, l, db, rp, l.length⟩ hne (l.get ⟨rp, hlt⟩) hr]
    dsimp only
    rw [ih g l db (rp + 1) (by omega)]
    rw [List.drop_eq_getElem_cons hlt, List.get_eq_getElem]

/-- `fetchAll` on a log-exact state returns the slice from the read cursor to
the write cursor. -/
lemma fetchAll_drop (g : Geom) (l : List Record) (db rp : Nat)
    (h : rp ≤ l.length) :
    fetchAll ⟨g, l, db, rp, l.length⟩ = l.drop rp := by
  unfold fetchAll
  dsimp only
  exact fetchList_drop (l.length - rp) g l db rp (by omega)

/-- After `rewind`, repeated fetching returns every record from the discard
boundary on. -/
lemma fetchAll_rewind (st : RingState) (hInv : Inv st) :
    fetchAll (rewind st) = st.log.drop st.discardBoundary := by
  obtain ⟨hwf, h1, h2, h3, h4⟩ := hInv
  obtain ⟨g, l, db, rp, wp⟩ := st
  dsimp only at h1 h2 h3 ⊢
  subst h3
  exact fetchAll_drop g l db db (le_trans h1 h2)

/-- In every invariant state the number of undiscarded records is at most one
full ring of slots. -/
lemma count_le_ring (st : RingState) (hInv : Inv st) :
    st.writePos - st.discardBoundary ≤
      st.geom.sectorCount * st.geom.slotsPerSector := by
  obtain ⟨⟨hN, hsp⟩, h1, h2, h3, h4⟩ := hInv
  by_cases hw : st.writePos = 0
  · rw [hw]
    omega
  · have hdm := Nat.div_add_mod (st.writePos - 1) st.geom.slotsPerSector
    have hm : (st.writePos - 1) % st.geom.slotsPerSector <
        st.geom.slotsPerSector := Nat.mod_lt _ hsp
    have e1 : ((st.writePos - 1) / st.geom.slotsPerSector + 1 -
          st.geom.sectorCount) * st.geom.slotsPerSector
        = ((st.writePos - 1) / st.geom.slotsPerSector + 1) *
            st.geom.slotsPerSector
          - st.geom.sectorCount * st.geom.slotsPerSector :=
      Nat.sub_mul _ _ _
    have e2 : ((st.writePos - 1) / st.geom.slotsPerSector + 1) *
          st.geom.slotsPerSector
        = st.geom.slotsPerSector *
            ((st.writePos - 1) / st.geom.slotsPerSector) +
          st.geom.slotsPerSector := by
      ring
    omega

/-- A run of in-capacity appends on a fresh-style state just extends the log:
no eviction fires while the write cursor stays within the first
`sectorCount * slotsPerSector` absolute slots. -/
lemma appendAll_no_evict (g : Geom) : ∀ (rs l : List Record),
    g.WF → (∀ r ∈ rs, r.length = g.recordSize) →
    l.length + rs.length ≤ g.sectorCount * g.slotsPerSector →
    appendAll ⟨g, l, 0, 0, l.length⟩ rs = ⟨g, l ++ rs, 0, 0, (l ++ rs).length⟩ := by
  intro rs
  induction rs with
  | nil =>
    intro l _ _ _
    simp [appendAll]
  | cons r rs ih =>
    intro l hwf hsz hcap
    simp only [List.length_cons] at hcap
    have hr : r.length = g.recordSize := hsz r (List.mem_cons_self r rs)
    have hlt : l.length < g.sectorCount * g.slotsPerSector := by omega
    have hc : ¬ (l.length % g.slotsPerSector = 0 ∧
        g.sectorCount ≤ l.length / g.slotsPerSector) := by
      rintro ⟨-, hge⟩
      have hb1 : g.sectorCount * g.slotsPerSector ≤
          l.length / g.slotsPerSector * g.slotsPerSector :=
        Nat.mul_le_mul_right _ hge
      have hb2 : l.length / g.slotsPerSector * g.slotsPerSector ≤ l.length :=
        Nat.div_mul_le_self _ _
      omega
    have hnb : evict_boundary g l.length = 0 := by
      unfold evict_boundary
      rw [if_neg hc]
    have hstep : append ⟨g, l, 0, 0, l.length⟩ r
        = (0, ⟨g, l ++ [r], 0, 0, l.length + 1⟩) := by
      rw [append_eq_success ⟨g, l, 0, 0, l.length⟩ r hr]
      dsimp only
      rw [hnb]
      simp
    simp only [appendAll]
    rw [hstep]
    dsimp only
    have hlen : l.length + 1 = (l ++ [r]).length := by
      simp
    rw [hlen]
    rw [ih (l ++ [r]) hwf (fun x hx => hsz x (List.mem_cons_of_mem r hx))
      (by simp only [List.length_append, List.length_singleton]; omega)]
    simp [List.append_assoc]

/-- Within one sector, the last byte of an erase-unit-length range starting at
`a` stays in the sector of `a` exactly when `a` is sector-aligned. -/
lemma aligned_iff (a E : Nat) (hE : 0 < E) :
    (a + E - 1) / E = a / E ↔ a % E = 0 := by
  have hdm := Nat.div_add_mod a E
  have hm : a % E < E := Nat.mod_lt _ hE
  constructor
  · intro h
    by_contra hne
    have hmul : E * (a / E + 1) = E * (a / E) + E := by ring
    have h1 : a + E - 1 = E * (a / E + 1) + (a % E - 1) := by omega
    rw [h1, Nat.mul_add_div hE] at h
    have h2 : (a % E - 1) / E = 0 := Nat.div_eq_of_lt (by omega)
    omega
  · intro h
    have h1 : a + E - 1 = E * (a / E) + (E - 1) := by omega
    rw [h1, Nat.mul_add_div hE]
    have h2 : (E - 1) / E = 0 := Nat.div_eq_of_lt (by omega)
    omega

/-- The witness geometry `g4` is well-formed. -/
lemma g4_wf : g4.WF := ⟨by decide, by decide⟩

/-- The counterexample geometry `g2` is well-formed. -/
lemma g2_wf : g2.WF := ⟨by decide, by decide⟩

/-- The two-record state over `g2` is reachable. -/
lemma st2W_reach : Reachable st2W :=
  Reachable.of_append _ _ (Reachable.of_append _ _
    (Reachable.of_format g2 g2_wf))

/-- The fetched state over `g4` is reachable. -/
lemma stFW_reach : Reachable stFW :=
  Reachable.of_fetch _ (Reachable.of_append _ _ (Reachable.of_append _ _
    (Reachable.of_format g4 g4_wf)))

/-- C1: For every sequence of appended records whose length does not exceed
maximumCapacity(), calling rewind and then fetch repeatedly returns exactly
those records, byte-for-byte, in the order they were appended. -/
theorem append_fetch_roundtrip (g : Geom) (rs : List Record) (hwf : g.WF)
    (hcap : rs.length ≤ maximum_capacity g)
    (hsz : ∀ r ∈ rs, r.length = g.recordSize) :
    fetchAll (rewind (appendAll (format g) rs)) = rs := by
  have hcap2 : rs.length ≤ g.sectorCount * g.slotsPerSector := by
    refine le_trans hcap ?_
    unfold maximum_capacity
    exact Nat.mul_le_mul_right _ (Nat.sub_le _ _)
  have happ := appendAll_no_evict g rs [] hwf hsz
    (by simpa using hcap2)
  simp only [List.length_nil, List.nil_append] at happ
  rw [show format g = (⟨g, [], 0, 0, 0⟩ : RingState) from rfl, happ]
  rw [show rewind (⟨g, rs, 0, 0, rs.length⟩ : RingState)
      = (⟨g, rs, 0, 0, rs.length⟩ : RingState) from rfl]
  rw [fetchAll_drop g rs 0 0 (Nat.zero_le _)]
  exact List.drop_zero rs

/-- Witness for C1: three records over the 4-sector, 4-slot geometry come
back in insertion order. -/
theorem append_fetch_roundtrip_witness :
    fetchAll (rewind (appendAll (format g4) [[1], [2], [3]])) =
      [[1], [2], [3]] :=
  append_fetch_roundtrip g4 [[1], [2], [3]] g4_wf (by decide) (by decide)

/-- C2 counterexample: over the 2-sector, 1-slot geometry (capacity 1),
a sequence of two appends exceeds maximumCapacity(), yet the resulting state
holds two records: exactCount() exceeds maximumCapacity(). -/
theorem overflow_capacity_cex :
    maximum_capacity g2 < ([[1], [2]] : List Record).length
    ∧ maximum_capacity g2 <
        exact_number_of_files (appendAll (format g2) [[1], [2]]) := by
  decide

/-- C2 (amended): eviction removes the oldest records first — in every
reachable state the surviving records are exactly the most recently appended
contiguous suffix of the log — and exactCount() is bounded by
sectorCount × slotsPerSector, i.e. maximumCapacity() plus one sector's worth
of slots, not by maximumCapacity() itself. -/
theorem overflow_capacity_bound (st : RingState) (h : Reachable st) :
    exact_number_of_files st ≤ st.geom.sectorCount * st.geom.slotsPerSector
    ∧ fetchAll (rewind st) = st.log.drop st.discardBoundary := by
  have hInv := reachable_inv h
  exact ⟨count_le_ring st hInv, fetchAll_rewind st hInv⟩

/-- Witness for the amended C2 at a concrete reachable two-record state. -/
theorem overflow_capacity_bound_witness :
    exact_number_of_files st2W ≤
      st2W.geom.sectorCount * st2W.geom.slotsPerSector
    ∧ fetchAll (rewind st2W) = st2W.log.drop st2W.discardBoundary :=
  overflow_capacity_bound st2W st2W_reach

/-- C3: in every state reachable by any sequence of
format/scan/append/fetch/discard/rewind operations, the cursors satisfy
discardBoundary ≤ readPos ≤ writePos along the linearised logical slot
sequence (the ring order of the spec). -/
theorem cursor_order_invariant (st : RingState) (h : Reachable st) :
    st.discardBoundary ≤ st.readPos ∧ st.readPos ≤ st.writePos := by
  obtain ⟨-, h1, h2, -, -⟩ := reachable_inv h
  exact ⟨h1, h2⟩

/-- Witness for C3 at a concrete reachable state with the read cursor
strictly between the other two. -/
theorem cursor_order_invariant_witness :
    stFW.discardBoundary ≤ stFW.readPos ∧ stFW.readPos ≤ stFW.writePos :=
  cursor_order_invariant stFW stFW_reach

/-- C4: append never partially commits, for every state, record and medium
fault pattern: it returns 0 or -1; on any error — wrong record size, a
failed eviction erase, or a failed slot program — the prior state (cursors,
log, geometry) is returned unchanged; on success exactly one slot is
appended to the log and the write cursor advances by exactly one, and
success requires the slot program, and any needed eviction erase, to have
succeeded. -/
theorem append_atomic (st : RingState) (r : Record) (flt : MediumFaults) :
    ((append_on st r flt).1 = 0 ∨ (append_on st r flt).1 = -1)
    ∧ ((append_on st r flt).1 ≠ 0 → (append_on st r flt).2 = st)
    ∧ ((append_on st r flt).1 = 0 →
        (append_on st r flt).2.log = st.log ++ [r]
        ∧ (append_on st r flt).2.writePos = st.writePos + 1
        ∧ (append_on st r flt).2.geom = st.geom)
    ∧ ((append_on st r flt).1 = 0 → flt.programOk = true)
    ∧ ((append_on st r flt).1 = 0 ∧
        st.writePos % st.geom.slotsPerSector = 0 ∧
        st.geom.sectorCount ≤ st.writePos / st.geom.slotsPerSector →
        flt.eraseOk = true) := by
  unfold append_on
  by_cases hs : r.length = st.geom.recordSize
  · rw [if_pos hs]
    by_cases h1 : (st.writePos % st.geom.slotsPerSector = 0 ∧
        st.geom.sectorCount ≤ st.writePos / st.geom.slotsPerSector) ∧
        flt.eraseOk = false
    · rw [if_pos h1]
      refine ⟨Or.inr rfl, fun _ => rfl, fun h0 => absurd h0 (by simp),
        fun h0 => absurd h0 (by simp), fun h0 => absurd h0.1 (by simp)⟩
    · rw [if_neg h1]
      by_cases h2 : flt.programOk = false
      · rw [if_pos h2]
        refine ⟨Or.inr rfl, fun _ => rfl, fun h0 => absurd h0 (by simp),
          fun h0 => absurd h0 (by simp), fun h0 => absurd h0.1 (by simp)⟩
      · rw [if_neg h2]
        refine ⟨Or.inl rfl, fun hne => absurd rfl hne,
          fun _ => ⟨rfl, rfl, rfl⟩, fun _ => by simpa using h2, ?_⟩
        rintro ⟨-, hc1, hc2⟩
        have hf : ¬ flt.eraseOk = false := fun hf => h1 ⟨⟨hc1, hc2⟩, hf⟩
        simpa using hf
  · rw [if_neg hs]
    refine ⟨Or.inr rfl, fun _ => rfl, fun h0 => absurd h0 (by simp),
      fun h0 => absurd h0 (by simp), fun h0 => absurd h0.1 (by simp)⟩

/-- Witness for C4: a correct-size record whose slot program fails is
rejected with -1 leaving the fresh state untouched (MediumError on program),
and an append that needs an eviction erase — the full ring `st2W` — whose
erase fails is rejected with -1 leaving `st2W` untouched (MediumError on the
eviction erase). -/
theorem append_atomic_witness :
    (append_on (format g2) [1] ⟨true, false⟩).2 = format g2
    ∧ (append_on st2W [3] ⟨false, true⟩).2 = st2W :=
  ⟨(append_atomic (format g2) [1] ⟨true, false⟩).2.1 (by decide),
   (append_atomic st2W [3] ⟨false, true⟩).2.1 (by decide)⟩

/-- C5: fetch fails with NoMoreRecords exactly when readPos = writePos;
otherwise it returns the record stored at readPos and advances readPos by
exactly one slot, leaving the log, the write cursor and the discard boundary
unchanged (no space released). -/
theorem fetch_spec (st : RingState) (h : Reachable st) :
    ((fetch st).1 = none ↔ st.readPos = st.writePos)
    ∧ (st.readPos ≠ st.writePos →
        (fetch st).1 = st.log[st.readPos]?
        ∧ (∃ r, (fetch st).1 = some r)
        ∧ (fetch st).2.readPos = st.readPos + 1)
    ∧ (fetch st).2.discardBoundary = st.discardBoundary
    ∧ (fetch st).2.log = st.log
    ∧ (fetch st).2.writePos = st.writePos := by
  obtain ⟨hwf, h1, h2, h3, h4⟩ := reachable_inv h
  by_cases he : st.readPos = st.writePos
  · rw [fetch_eq_none st he]
    exact ⟨⟨fun _ => he, fun _ => rfl⟩, fun hne => absurd he hne, rfl, rfl, rfl⟩
  · rw [fetch_eq_some st he]
    have hlt : st.readPos < st.log.length := by omega
    refine ⟨⟨fun hnone => ?_, fun heq => absurd heq he⟩,
      fun _ => ⟨rfl, ⟨st.log.get ⟨st.readPos, hlt⟩, ?_⟩, rfl⟩, rfl, rfl, rfl⟩
    · dsimp only at hnone
      rw [List.getElem?_eq_getElem hlt] at hnone
      exact Option.noConfusion hnone
    · dsimp only
      rw [List.get_eq_getElem]
      exact List.getElem?_eq_getElem hlt

/-- Witness for C5 at a concrete reachable state with records pending. -/
theorem fetch_spec_witness :
    ((fetch st2W).1 = none ↔ st2W.readPos = st2W.writePos)
    ∧ (st2W.readPos ≠ st2W.writePos →
        (fetch st2W).1 = st2W.log[st2W.readPos]?
        ∧ (∃ r, (fetch st2W).1 = some r)
        ∧ (fetch st2W).2.readPos = st2W.readPos + 1)
    ∧ (fetch st2W).2.discardBoundary = st2W.discardBoundary
    ∧ (fetch st2W).2.log = st2W.log
    ∧ (fetch st2W).2.writePos = st2W.writePos :=
  fetch_spec st2W st2W_reach

/-- C6: for an engine initialized over a block device (the constructor sets
sectorCount = size() / get_erase_size()), maximumCapacity() equals
(sectorCount − 1) × slotsPerSector: exactly one sector's worth of slots is
excluded from the reported capacity. -/
theorem maximum_capacity_spec (bd : BlockDevice) (slots rsz : Nat)
    (h : 1 ≤ bd.size / bd.get_erase_size) :
    maximum_capacity (init_geom bd slots rsz)
      = (bd.size / bd.get_erase_size - 1) * slots
    ∧ maximum_capacity (init_geom bd slots rsz) + slots
      = (init_geom bd slots rsz).sectorCount * slots := by
  constructor
  · rfl
  · show (bd.size / bd.get_erase_size - 1) * slots + slots
        = bd.size / bd.get_erase_size * slots
    have e1 : (bd.size / bd.get_erase_size - 1) * slots
        = bd.size / bd.get_erase_size * slots - 1 * slots := Nat.sub_mul _ _ _
    have e2 : 1 * slots ≤ bd.size / bd.get_erase_size * slots :=
      Nat.mul_le_mul_right _ h
    omega

/-- Witness for C6 over the concrete 1 KiB block device with 256-byte erase
units (4 sectors). -/
theorem maximum_capacity_spec_witness :
    maximum_capacity (init_geom bdW 15 16)
      = (bdW.size / bdW.get_erase_size - 1) * 15
    ∧ maximum_capacity (init_geom bdW 15 16) + 15
      = (init_geom bdW 15 16).sectorCount * 15 :=
  maximum_capacity_spec bdW 15 16 (by decide)

/-- C7: scan only reads the persisted medium and is idempotent: the cursor
it produces is a function of the persisted state alone, independent of the
volatile pre-scan read cursor, and scanning twice with no intervening writes
yields an identical cursor (readPos, writePos, discardBoundary). -/
theorem scan_idempotent (st : RingState) :
    scan (scan st) = scan st
    ∧ (scan st).log = st.log
    ∧ (scan st).writePos = st.writePos
    ∧ (scan st).discardBoundary = st.discardBoundary
    ∧ (scan st).readPos = st.discardBoundary
    ∧ ∀ j : Nat,
        scan ⟨st.geom, st.log, st.discardBoundary, j, st.writePos⟩ = scan st :=
  ⟨rfl, rfl, rfl, rfl, rfl, fun _ => rfl⟩

/-- C8: rewind sets readPos = discardBoundary and changes nothing else;
after discard-then-rewind repeated fetching returns exactly the slots from
the old readPos on, so no record discarded by that discard is re-exposed,
while rewind without a discard re-exposes every slot from discardBoundary
on, covering every fetched-but-undiscarded record. -/
theorem rewind_spec (st : RingState) (h : Reachable st) :
    rewind st = ⟨st.geom, st.log, st.discardBoundary, st.discardBoundary,
      st.writePos⟩
    ∧ fetchAll (rewind (discard st)) = st.log.drop st.readPos
    ∧ fetchAll (rewind st) = st.log.drop st.discardBoundary := by
  have hInv := reachable_inv h
  refine ⟨rfl, ?_, fetchAll_rewind st hInv⟩
  obtain ⟨hwf, h1, h2, h3, h4⟩ := hInv
  obtain ⟨g, l, db, rp, wp⟩ := st
  dsimp only at h2 h3
  subst h3
  show fetchAll ⟨g, l, rp, rp, l.length⟩ = l.drop rp
  exact fetchAll_drop g l rp rp h2

/-- Witness for C8 at a concrete reachable state with a fetched record. -/
theorem rewind_spec_witness :
    rewind stFW = ⟨stFW.geom, stFW.log, stFW.discardBoundary,
      stFW.discardBoundary, stFW.writePos⟩
    ∧ fetchAll (rewind (discard stFW)) = stFW.log.drop stFW.readPos
    ∧ fetchAll (rewind stFW) = stFW.log.drop stFW.discardBoundary :=
  rewind_spec stFW stFW_reach

/-- C9: _sector_erase issues exactly one block-device erase, of
get_erase_size() bytes starting at the given address itself (not at the
containing sector's start), and returns 0 exactly when the underlying erase
returns 0 and -1 otherwise; the erased range stays inside the sector
containing the address exactly when the address is sector-aligned. -/
theorem sector_erase_spec (bd : BlockDevice) (address : Nat)
    (h : 0 < bd.get_erase_size) :
    (_sector_erase bd address).2 = [⟨address, bd.get_erase_size⟩]
    ∧ ((_sector_erase bd address).1 = 0 ↔
        bd.erase address bd.get_erase_size = 0)
    ∧ ((_sector_erase bd address).1 = 0 ∨ (_sector_erase bd address).1 = -1)
    ∧ ∀ c ∈ (_sector_erase bd address).2,
        ((c.addr + c.len - 1) / bd.get_erase_size =
            c.addr / bd.get_erase_size
          ↔ address % bd.get_erase_size = 0) := by
  refine ⟨rfl, ?_, ?_, ?_⟩
  · unfold _sector_erase
    by_cases hc : bd.erase address bd.get_erase_size = 0
    · simp [hc]
    · simp [hc]
  · unfold _sector_erase
    by_cases hc : bd.erase address bd.get_erase_size = 0
    · simp [hc]
    · simp [hc]
  · intro c hc
    have hce : c = ⟨address, bd.get_erase_size⟩ := by
      have h2 : (_sector_erase bd address).2 =
          [⟨address, bd.get_erase_size⟩] := rfl
      rw [h2] at hc
      simpa using hc
    subst hce
    exact aligned_iff address bd.get_erase_size h

/-- Witness for C9: the concrete device with 256-byte erase units, at the
unaligned address 300. -/
theorem sector_erase_spec_witness :
    (_sector_erase bdW 300).2 = [⟨300, bdW.get_erase_size⟩]
    ∧ ((_sector_erase bdW 300).1 = 0 ↔ bdW.erase 300 bdW.get_erase_size = 0)
    ∧ ((_sector_erase bdW 300).1 = 0 ∨ (_sector_erase bdW 300).1 = -1)
    ∧ ∀ c ∈ (_sector_erase bdW 300).2,
        ((c.addr + c.len - 1) / bdW.get_erase_size =
            c.addr / bdW.get_erase_size
          ↔ 300 % bdW.get_erase_size = 0) :=
  sector_erase_spec bdW 300 (by decide)

/-- C10: the adapter's program and read callbacks translate the block
device's status convention into the engine's byte-count convention: each
returns exactly the requested size when the underlying call returns 0 and
-1 otherwise; a partial byte count is never returned. -/
theorem program_read_return_convention (bd : BlockDevice) (address : Nat)
    (data : List Nat) (size : Nat) :
    (_program bd address data size = (size : Int) ↔
      bd.program data address size = 0)
    ∧ (_program bd address data size = -1 ↔ bd.program data address size ≠ 0)
    ∧ (_program bd address data size = (size : Int)
        ∨ _program bd address data size = -1)
    ∧ (_read bd address size = (size : Int) ↔ bd.read address size = 0)
    ∧ (_read bd address size = -1 ↔ bd.read address size ≠ 0)
    ∧ (_read bd address size = (size : Int) ∨ _read bd address size = -1) := by
  unfold _program _read
  by_cases hp : bd.program data address size = 0 <;>
    by_cases hr : bd.read address size = 0 <;>
      simp [hp, hr]

end Ringfs
